import Mathlib

/-!
A shallow embedding of the `Store`/`Ability` hierarchical key-value store.

JavaScript runtime values reachable through the store API are modelled by
`StoreValue`; a `Store` instance is the constructor `vStore props annots`,
where `props` is the ordered own-property list (JS objects keep insertion
order; `new Store()` starts with the single own property `defaultPolicy`)
and `annots` is the per-key `Restrict` decorator table (Reflect metadata,
keyed by property name; the stored `Ability`'s permission value is kept).
Producer functions are modelled as the value they return when invoked
(`vFn ret`): the spec treats producers as idempotent and side-effect free.
Thrown JS exceptions are modelled with `Except String`; since a JS exception
does not roll back heap mutations, the mutating operations return the
post-state alongside the `Except` result.

`FieldList` is an ordered association list of string-keyed values (a plain
JS object's own enumerable properties); `ValueList` is a JS array.  They are
mutually inductive with `StoreValue` so that equality and the recursive
operations are structural.
-/

inductive Prim where
  | pStr (s : String)
  | pNum (n : Int)
  | pBool (b : Bool)
  | pNull
deriving DecidableEq, Repr

mutual

inductive StoreValue where
  | vPrim (p : Prim)
  | vUndefined
  | vArr (elems : ValueList)
  | vObj (fields : FieldList)
  | vStore (props : FieldList) (annots : FieldList)
  | vFn (ret : StoreValue)
deriving DecidableEq, Repr

inductive ValueList where
  | nil
  | cons (v : StoreValue) (rest : ValueList)
deriving DecidableEq, Repr

inductive FieldList where
  | nil
  | cons (k : String) (v : StoreValue) (rest : FieldList)
deriving DecidableEq, Repr

end

open StoreValue Prim

deriving instance DecidableEq for Except

namespace FieldList

/-- JS property lookup in an own-property list (first match). -/
def lookup : FieldList → String → Option StoreValue
  | .nil, _ => none
  | .cons k v rest, key => if k = key then some v else lookup rest key

/-- JS property assignment: updates an existing key in place (keeping its
position, as JS objects do), else appends the new key at the end. -/
def set : FieldList → String → StoreValue → FieldList
  | .nil, key, v => .cons key v .nil
  | .cons k w rest, key, v =>
    if k = key then .cons k v rest else .cons k w (set rest key v)

def append : FieldList → FieldList → FieldList
  | .nil, ys => ys
  | .cons k v rest, ys => .cons k v (append rest ys)

end FieldList

/-- Reading an absent property yields `undefined`. -/
def getProp (props : FieldList) (key : String) : StoreValue :=
  (FieldList.lookup props key).getD .vUndefined

/-- JS truthiness of the modelled values (`NaN` and `-0` do not arise: numbers
are modelled as integers). -/
def truthy : StoreValue → Bool
  | .vUndefined => false
  | .vPrim .pNull => false
  | .vPrim (.pBool false) => false
  | .vPrim (.pNum 0) => false
  | .vPrim (.pStr "") => false
  | _ => true

/-- `typeof v === "object"`: true for plain objects, arrays, `Store`
instances and `null`; false for strings, numbers, booleans, `undefined`
and functions. -/
def typeofIsObject : StoreValue → Bool
  | .vObj _ => true
  | .vArr _ => true
  | .vStore _ _ => true
  | .vPrim .pNull => true
  | _ => false

/-- `v instanceof Store`. -/
def isStoreInstance : StoreValue → Bool
  | .vStore _ _ => true
  | _ => false

/-- `path.split(":")` for the single-character separator `":"`. -/
def splitColonChars : List Char → List String
  | [] => [""]
  | c :: cs =>
    let r := splitColonChars cs
    if c = ':' then "" :: r
    else
      match r with
      | s :: ss => String.mk (c :: s.data) :: ss
      | [] => [String.mk [c]]

def splitColon (s : String) : List String := splitColonChars s.data

/-- `class Ability`: an immutable capability descriptor.  The permission is
kept as the runtime value it was constructed from (`Permission` strings in
the typed source). -/
structure Ability where
  permission : StoreValue
deriving DecidableEq, Repr

/-- `canRead(): permission === "r" || permission === "rw"`. -/
def Ability.canRead (a : Ability) : Bool :=
  a.permission == .vPrim (.pStr "r") || a.permission == .vPrim (.pStr "rw")

/-- `canWrite(): permission === "w" || permission === "rw"`. -/
def Ability.canWrite (a : Ability) : Bool :=
  a.permission == .vPrim (.pStr "w") || a.permission == .vPrim (.pStr "rw")

namespace Store

/-- `new Store()`: own properties are exactly `defaultPolicy = "rw"`; a plain
store has no `Restrict` metadata. -/
def newStore : StoreValue :=
  .vStore (.cons "defaultPolicy" (.vPrim (.pStr "rw")) .nil) .nil

/-- `getAbilityMetadata(key)`: the `Restrict` metadata for the key if any,
else `new Ability(this.defaultPolicy)`.  (Methods are only ever invoked on
`Store` receivers; the catch-all case is unreachable.) -/
def getAbilityMetadata (st : StoreValue) (key : String) : Ability :=
  match st with
  | .vStore props annots =>
    match FieldList.lookup annots key with
    | some perm => ⟨perm⟩
    | none => ⟨getProp props "defaultPolicy"⟩
  | _ => ⟨.vUndefined⟩

def allowedToRead (st : StoreValue) (key : String) : Bool :=
  (getAbilityMetadata st key).canRead

def allowedToWrite (st : StoreValue) (key : String) : Bool :=
  (getAbilityMetadata st key).canWrite

/-- `deepReading(path)`.  The final catch-all is unreachable from `read`:
`split` never yields an empty array and the receiver is always a `Store`. -/
def deepReading : StoreValue → List String → Except String StoreValue
  | .vStore props annots, p0 :: rest =>
    if allowedToRead (.vStore props annots) p0 = false then
      .error "Cannot read property"
    else
      let itemToRead :=
        match getProp props p0 with
        | .vFn ret => ret
        | v => v
      match itemToRead, rest with
      | .vStore cp ca, r0 :: rrest => deepReading (.vStore cp ca) (r0 :: rrest)
      | v, _ => .ok v
  | st, _ => (fun _ => .error "unreachable") st

/-- `deepWriting(path, value)`: returns the mutated store together with the
result (a JS exception leaves prior in-place mutations committed, so the
post-state accompanies the error).  The source guards are
`!this[pathToWrite] && path.length > 1` (auto-vivification) and
`path.length === 1` (terminal assignment); they are transcribed per path
shape: with a single segment only the assignment can fire, with several
segments only the auto-vivification can. -/
def deepWriting : StoreValue → List String → StoreValue → StoreValue × Except String StoreValue
  | .vStore props annots, [p0], value =>
    if allowedToWrite (.vStore props annots) p0 = false then
      (.vStore props annots, .error "Cannot read property")
    else
      let props1 := FieldList.set props p0 value
      (.vStore props1 annots, .ok (getProp props1 p0))
  | .vStore props annots, p0 :: r0 :: rrest, value =>
    if allowedToWrite (.vStore props annots) p0 = false then
      (.vStore props annots, .error "Cannot read property")
    else
      let props1 :=
        if truthy (getProp props p0) = false then
          FieldList.set props p0 newStore
        else props
      match getProp props1 p0 with
      | .vStore cp ca =>
        let result := deepWriting (.vStore cp ca) (r0 :: rrest) value
        (.vStore (FieldList.set props1 p0 result.1) annots, result.2)
      | _ =>
        (.vStore props1 annots, .error "TypeError: deepWriting is not a function")
  | st, _, _ => (st, .error "unreachable")

/-- The template `` `${basePath ? `${basePath}:` : ""}${entry[0]}` ``:
a `null` or empty base path is falsy. -/
def childPath (basePath : Option String) (key : String) : String :=
  match basePath with
  | some b => if b = "" then key else b ++ ":" ++ key
  | none => key

/-- `Object.entries` of a string: one entry per character. -/
def deepCreatingFromChars (basePath : Option String) (i : Nat) :
    List Char → List (String × StoreValue)
  | [] => []
  | c :: cs =>
    (childPath basePath (toString i), .vPrim (.pStr (String.mk [c]))) ::
      deepCreatingFromChars basePath (i + 1) cs

mutual

/-- `deepCreatingPathFromJSONObject(basePath, value)`: flattens a value into
`(path, value)` pairs via `Object.entries`, recursing into entries whose
`typeof` is `"object"`.  `Object.entries` throws on `null`/`undefined`,
enumerates array indices, a `Store`'s own properties (including
`defaultPolicy`) and a string's characters, and is empty on other
primitives and functions. -/
def deepCreatingPathFromJSONObject (basePath : Option String) (value : StoreValue) :
    Except String (List (String × StoreValue)) :=
  match value with
  | .vObj fields => deepCreatingFromFields basePath fields
  | .vStore props _ => deepCreatingFromFields basePath props
  | .vArr elems => deepCreatingFromElems basePath 0 elems
  | .vPrim .pNull => .error "TypeError: Cannot convert null to object"
  | .vUndefined => .error "TypeError: Cannot convert undefined to object"
  | .vPrim (.pStr s) => .ok (deepCreatingFromChars basePath 0 s.data)
  | _ => .ok []

def deepCreatingFromFields (basePath : Option String) (fields : FieldList) :
    Except String (List (String × StoreValue)) :=
  match fields with
  | .nil => .ok []
  | .cons k v rest =>
    let cbp := childPath basePath k
    if typeofIsObject v = false then
      match deepCreatingFromFields basePath rest with
      | .error e => .error e
      | .ok restPairs => .ok ((cbp, v) :: restPairs)
    else
      match deepCreatingPathFromJSONObject (some cbp) v with
      | .error e => .error e
      | .ok headPairs =>
        match deepCreatingFromFields basePath rest with
        | .error e => .error e
        | .ok restPairs => .ok (headPairs ++ restPairs)

def deepCreatingFromElems (basePath : Option String) (i : Nat) (elems : ValueList) :
    Except String (List (String × StoreValue)) :=
  match elems with
  | .nil => .ok []
  | .cons v rest =>
    let cbp := childPath basePath (toString i)
    if typeofIsObject v = false then
      match deepCreatingFromElems basePath (i + 1) rest with
      | .error e => .error e
      | .ok restPairs => .ok ((cbp, v) :: restPairs)
    else
      match deepCreatingPathFromJSONObject (some cbp) v with
      | .error e => .error e
      | .ok headPairs =>
        match deepCreatingFromElems basePath (i + 1) rest with
        | .error e => .error e
        | .ok restPairs => .ok (headPairs ++ restPairs)

end

/-- Sequentially writes flattened `(path, value)` pairs
(`paths.map((path) => this.write(path.path, path.value))`), stopping at the
first thrown error with all earlier writes committed.  The source invokes
`this.write` on each pair; a flattened pair's value is never object-typed
(`deepCreating_value_not_object` below), and on a non-object value `write`
is exactly `deepWriting` on the split path (`write_nonObject` below), which
is what is applied here. -/
def writeList (st : StoreValue) : List (String × StoreValue) → StoreValue × Except String Unit
  | [] => (st, .ok ())
  | (p, v) :: rest =>
    match deepWriting st (splitColon p) v with
    | (st', .ok _) => writeList st' rest
    | (st', .error e) => (st', .error e)

/-- `write(path, value)`. -/
def write (st : StoreValue) (path : String) (value : StoreValue) :
    StoreValue × Except String StoreValue :=
  if typeofIsObject value then
    match deepCreatingPathFromJSONObject (some path) value with
    | .error e => (st, .error e)
    | .ok pairs =>
      match writeList st pairs with
      | (st', .ok _) => (st', .ok value)
      | (st', .error e) => (st', .error e)
  else
    deepWriting st (splitColon path) value

/-- `writeEntries(entries)`: flattens with a `null` base path and writes each
pair; the return value is discarded (`void`). -/
def writeEntries (st : StoreValue) (entriesObj : StoreValue) :
    StoreValue × Except String Unit :=
  match deepCreatingPathFromJSONObject none entriesObj with
  | .error e => (st, .error e)
  | .ok pairs => writeList st pairs

/-- `read(path)`. -/
def read (st : StoreValue) (path : String) : Except String StoreValue :=
  deepReading st (splitColon path)

mutual

/-- `entries()`: folds over `Object.entries(this)` (all own properties, in
insertion order, including `defaultPolicy`), skipping keys whose read
permission is denied, recursively snapshotting nested `Store` values and
keeping every other value (producer functions included) verbatim. -/
def entries (st : StoreValue) : StoreValue :=
  match st with
  | .vStore props annots => .vObj (entriesFromProps (.vStore props annots) props)
  | _ => .vObj .nil

def entriesFromProps (self : StoreValue) (l : FieldList) : FieldList :=
  match l with
  | .nil => .nil
  | .cons k v rest =>
    if allowedToRead self k = false then entriesFromProps self rest
    else
      match v with
      | .vStore cp ca => .cons k (entries (.vStore cp ca)) (entriesFromProps self rest)
      | v => .cons k v (entriesFromProps self rest)

end

end Store

/-- `this[key]` on a `Store` receiver. -/
def ownProp (st : StoreValue) (key : String) : StoreValue :=
  match st with
  | .vStore props _ => getProp props key
  | _ => .vUndefined

/-- The field list of a plain object (`entries()` results are `vObj`). -/
def objFields : StoreValue → FieldList
  | .vObj fields => fields
  | _ => .nil

/-- The assignment `store.defaultPolicy = p` (a mutation of the own
property `defaultPolicy`). -/
def setDefaultPolicy (st : StoreValue) (p : String) : StoreValue :=
  match st with
  | .vStore props annots => .vStore (FieldList.set props "defaultPolicy" (.vPrim (.pStr p))) annots
  | st => st

/-- A store whose own properties are `defaultPolicy = "rw"` followed by
`props`, with no `Restrict` metadata: the shape of `new Store()` after a
sequence of plain writes. -/
def plainStore (props : FieldList) : StoreValue :=
  .vStore (.cons "defaultPolicy" (.vPrim (.pStr "rw")) props) .nil

/-- Prefixing every flattened path with `b ++ ":"`. -/
def prefixPairs (b : String) (ps : List (String × StoreValue)) : List (String × StoreValue) :=
  ps.map (fun pv => (b ++ ":" ++ pv.1, pv.2))

def colonFree (s : String) : Bool := s.data.all (fun c => c ≠ ':')

/-- Keys usable in a round-trippable structured object: nonempty, without
the path separator, and not colliding with the `defaultPolicy` own
property. -/
def goodKey (k : String) : Bool := (k ≠ "") && (k ≠ "defaultPolicy") && colonFree k

def keyNotIn (k : String) : FieldList → Bool
  | .nil => true
  | .cons k' _ rest => (k' ≠ k) && keyNotIn k rest

def nodupKeys : FieldList → Bool
  | .nil => true
  | .cons k _ rest => keyNotIn k rest && nodupKeys rest

def isNilF : FieldList → Bool
  | .nil => true
  | _ => false

/-- Leaves that survive a write/entries round trip: non-null primitives
(`null` is object-typed, so `Object.entries` throws on it). -/
def goodLeaf : StoreValue → Bool
  | .vPrim .pNull => false
  | .vPrim _ => true
  | _ => false

mutual

/-- A round-trippable entry value: a non-null primitive leaf or a nested
non-empty round-trippable object. -/
def goodEntryVal : StoreValue → Bool
  | .vObj f2 => !isNilF f2 && nodupKeys f2 && goodFields f2
  | v => goodLeaf v

/-- A round-trippable field list: every key is a `goodKey` and every value a
`goodEntryVal` (keys are JS object keys, hence pairwise distinct; the
duplicate-freedom is carried separately by `nodupKeys`). -/
def goodFields : FieldList → Bool
  | .nil => true
  | .cons k v rest => goodKey k && goodEntryVal v && goodFields rest

end

mutual

/-- The store entry that the flattened write of a round-trippable value
produces: nested objects become auto-vivified plain stores. -/
def storeEntryVal : StoreValue → StoreValue
  | .vObj f2 => plainStore (storeFields f2)
  | v => v

def storeFields : FieldList → FieldList
  | .nil => .nil
  | .cons k v rest => .cons k (storeEntryVal v) (storeFields rest)

end

mutual

/-- A round-trippable object as `entries()` reports it back: every object
level additionally carries a leading `defaultPolicy = "rw"` entry. -/
def augEntryVal : StoreValue → StoreValue
  | .vObj f2 => .vObj (.cons "defaultPolicy" (.vPrim (.pStr "rw")) (augFields f2))
  | v => v

def augFields : FieldList → FieldList
  | .nil => .nil
  | .cons k v rest => .cons k (augEntryVal v) (augFields rest)

end

/-- Every key of the first field list is absent from the second. -/
def keysAbsent : FieldList → FieldList → Bool
  | .nil, _ => true
  | .cons k _ rest, done => (FieldList.lookup done k).isNone && keysAbsent rest done

/-! ## Helper lemmas -/

theorem FieldList.lookup_set_self : ∀ (l : FieldList) (k : String) (v : StoreValue),
    FieldList.lookup (FieldList.set l k v) k = some v
  | .nil, k, v => by simp [FieldList.set, FieldList.lookup]
  | .cons k' w rest, k, v => by
    by_cases h : k' = k
    · simp [FieldList.set, FieldList.lookup, h]
    · simp [FieldList.set, FieldList.lookup, h, FieldList.lookup_set_self rest k v]

theorem FieldList.lookup_set_ne : ∀ (l : FieldList) (k k' : String) (v : StoreValue),
    k ≠ k' → FieldList.lookup (FieldList.set l k v) k' = FieldList.lookup l k'
  | .nil, k, k', v, hne => by simp [FieldList.set, FieldList.lookup, hne]
  | .cons k0 w rest, k, k', v, hne => by
    by_cases h : k0 = k
    · subst h
      simp [FieldList.set, FieldList.lookup, hne]
    · simp [FieldList.set, FieldList.lookup, h, FieldList.lookup_set_ne rest k k' v hne]

theorem FieldList.set_set : ∀ (l : FieldList) (k : String) (a b : StoreValue),
    FieldList.set (FieldList.set l k a) k b = FieldList.set l k b
  | .nil, k, a, b => by simp [FieldList.set]
  | .cons k' w rest, k, a, b => by
    by_cases h : k' = k
    · simp [FieldList.set, h]
    · simp [FieldList.set, h, FieldList.set_set rest k a b]

theorem getProp_set_self (l : FieldList) (k : String) (v : StoreValue) :
    getProp (FieldList.set l k v) k = v := by
  simp [getProp, FieldList.lookup_set_self]

theorem getProp_set_ne (l : FieldList) (k k' : String) (v : StoreValue) (h : k ≠ k') :
    getProp (FieldList.set l k v) k' = getProp l k' := by
  simp [getProp, FieldList.lookup_set_ne l k k' v h]

theorem getProp_of_lookup_none (l : FieldList) (k : String)
    (h : FieldList.lookup l k = none) : getProp l k = .vUndefined := by
  simp [getProp, h]

/-- On a non-object value, `write` is exactly a deep write of the split
path (the `typeof value === "object"` branch is not taken). -/
theorem write_nonObject (st : StoreValue) (p : String) (v : StoreValue)
    (h : typeofIsObject v = false) :
    Store.write st p v = Store.deepWriting st (splitColon p) v := by
  simp [Store.write, h]

theorem deepCreatingFromChars_value_notObject :
    ∀ (bp : Option String) (i : Nat) (cs : List Char)
      (pv : String × StoreValue), pv ∈ Store.deepCreatingFromChars bp i cs →
      typeofIsObject pv.2 = false
  | bp, i, [], pv, h => by simp [Store.deepCreatingFromChars] at h
  | bp, i, c :: cs, pv, h => by
    simp only [Store.deepCreatingFromChars, List.mem_cons] at h
    rcases h with h | h
    · subst h; rfl
    · exact deepCreatingFromChars_value_notObject bp (i + 1) cs pv h

mutual

/-- Every `(path, value)` pair produced by the flattening step carries a
value whose `typeof` is not `"object"` (the object-typed entries are the
ones recursed into). -/
theorem deepCreating_value_notObject :
    ∀ (bp : Option String) (v : StoreValue) (pairs : List (String × StoreValue)),
      Store.deepCreatingPathFromJSONObject bp v = .ok pairs →
      ∀ pv ∈ pairs, typeofIsObject pv.2 = false
  | bp, .vObj fields, pairs, h =>
    deepCreatingFromFields_value_notObject bp fields pairs
      (by simpa [Store.deepCreatingPathFromJSONObject] using h)
  | bp, .vStore props annots, pairs, h =>
    deepCreatingFromFields_value_notObject bp props pairs
      (by simpa [Store.deepCreatingPathFromJSONObject] using h)
  | bp, .vArr elems, pairs, h =>
    deepCreatingFromElems_value_notObject bp 0 elems pairs
      (by simpa [Store.deepCreatingPathFromJSONObject] using h)
  | bp, .vPrim .pNull, pairs, h => by
    simp [Store.deepCreatingPathFromJSONObject] at h
  | bp, .vUndefined, pairs, h => by
    simp [Store.deepCreatingPathFromJSONObject] at h
  | bp, .vPrim (.pStr s), pairs, h => by
    have hp : pairs = Store.deepCreatingFromChars bp 0 s.data := by
      have := h
      simp [Store.deepCreatingPathFromJSONObject] at this
      exact this.symm
    intro pv hpv
    exact deepCreatingFromChars_value_notObject bp 0 s.data pv (hp ▸ hpv)
  | bp, .vPrim (.pNum n), pairs, h => by
    have hp : pairs = [] := by
      have := h
      simp [Store.deepCreatingPathFromJSONObject] at this
      exact this
    subst hp
    intro pv hpv
    simp at hpv
  | bp, .vPrim (.pBool b), pairs, h => by
    have hp : pairs = [] := by
      have := h
      simp [Store.deepCreatingPathFromJSONObject] at this
      exact this
    subst hp
    intro pv hpv
    simp at hpv
  | bp, .vFn ret, pairs, h => by
    have hp : pairs = [] := by
      have := h
      simp [Store.deepCreatingPathFromJSONObject] at this
      exact this
    subst hp
    intro pv hpv
    simp at hpv

theorem deepCreatingFromFields_value_notObject :
    ∀ (bp : Option String) (fs : FieldList) (pairs : List (String × StoreValue)),
      Store.deepCreatingFromFields bp fs = .ok pairs →
      ∀ pv ∈ pairs, typeofIsObject pv.2 = false
  | bp, .nil, pairs, h => by
    simp [Store.deepCreatingFromFields] at h
    subst h
    intro pv hpv
    simp at hpv
  | bp, .cons k v rest, pairs, h => by
    by_cases htyp : typeofIsObject v = false
    · cases hrest : Store.deepCreatingFromFields bp rest with
      | error e => simp [Store.deepCreatingFromFields, htyp, hrest] at h
      | ok restPairs =>
        have ih := deepCreatingFromFields_value_notObject bp rest restPairs hrest
        simp [Store.deepCreatingFromFields, htyp, hrest] at h
        subst h
        intro pv hpv
        rcases List.mem_cons.mp hpv with h' | h'
        · subst h'; exact htyp
        · exact ih pv h'
    · cases hhead : Store.deepCreatingPathFromJSONObject (some (Store.childPath bp k)) v with
      | error e => simp [Store.deepCreatingFromFields, htyp, hhead] at h
      | ok headPairs =>
        cases hrest : Store.deepCreatingFromFields bp rest with
        | error e => simp [Store.deepCreatingFromFields, htyp, hhead, hrest] at h
        | ok restPairs =>
          have ihh := deepCreating_value_notObject (some (Store.childPath bp k)) v headPairs hhead
          have ih := deepCreatingFromFields_value_notObject bp rest restPairs hrest
          simp [Store.deepCreatingFromFields, htyp, hhead, hrest] at h
          subst h
          intro pv hpv
          rcases List.mem_append.mp hpv with h' | h'
          · exact ihh pv h'
          · exact ih pv h'

theorem deepCreatingFromElems_value_notObject :
    ∀ (bp : Option String) (i : Nat) (es : ValueList) (pairs : List (String × StoreValue)),
      Store.deepCreatingFromElems bp i es = .ok pairs →
      ∀ pv ∈ pairs, typeofIsObject pv.2 = false
  | bp, i, .nil, pairs, h => by
    simp [Store.deepCreatingFromElems] at h
    subst h
    intro pv hpv
    simp at hpv
  | bp, i, .cons v rest, pairs, h => by
    by_cases htyp : typeofIsObject v = false
    · cases hrest : Store.deepCreatingFromElems bp (i + 1) rest with
      | error e => simp [Store.deepCreatingFromElems, htyp, hrest] at h
      | ok restPairs =>
        have ih := deepCreatingFromElems_value_notObject bp (i + 1) rest restPairs hrest
        simp [Store.deepCreatingFromElems, htyp, hrest] at h
        subst h
        intro pv hpv
        rcases List.mem_cons.mp hpv with h' | h'
        · subst h'; exact htyp
        · exact ih pv h'
    · cases hhead : Store.deepCreatingPathFromJSONObject (some (Store.childPath bp (toString i))) v with
      | error e => simp [Store.deepCreatingFromElems, htyp, hhead] at h
      | ok headPairs =>
        cases hrest : Store.deepCreatingFromElems bp (i + 1) rest with
        | error e => simp [Store.deepCreatingFromElems, htyp, hhead, hrest] at h
        | ok restPairs =>
          have ihh := deepCreating_value_notObject (some (Store.childPath bp (toString i))) v headPairs hhead
          have ih := deepCreatingFromElems_value_notObject bp (i + 1) rest restPairs hrest
          simp [Store.deepCreatingFromElems, htyp, hhead, hrest] at h
          subst h
          intro pv hpv
          rcases List.mem_append.mp hpv with h' | h'
          · exact ihh pv h'
          · exact ih pv h'

end

/-- A failing batch of flattened writes decomposes as: a committed prefix,
then the failing pair whose deep write raised the error; the final state is
the state the failing write left behind, built on top of the committed
prefix. -/
theorem writeList_error_decomp :
    ∀ (pairs : List (String × StoreValue)) (st st' : StoreValue) (e : String),
      Store.writeList st pairs = (st', .error e) →
      ∃ pre p v suf stPre, pairs = pre ++ (p, v) :: suf ∧
        Store.writeList st pre = (stPre, .ok ()) ∧
        Store.deepWriting stPre (splitColon p) v = (st', .error e)
  | [], st, st', e, h => by simp [Store.writeList] at h
  | (p, v) :: rest, st, st', e, h => by
    cases hw : Store.deepWriting st (splitColon p) v with
    | mk st1 res =>
      cases res with
      | ok r =>
        have h' : Store.writeList st1 rest = (st', .error e) := by
          simpa [Store.writeList, hw] using h
        obtain ⟨pre, p', v', suf, stPre, hsplit, hpre, hfail⟩ :=
          writeList_error_decomp rest st1 st' e h'
        refine ⟨(p, v) :: pre, p', v', suf, stPre, by simp [hsplit], ?_, hfail⟩
        simp [Store.writeList, hw, hpre]
      | error e' =>
        have h1 : st1 = st' ∧ e' = e := by
          have h2 := h
          simp [Store.writeList, hw] at h2
          exact h2
        refine ⟨[], p, v, rest, st, rfl, by simp [Store.writeList], ?_⟩
        rw [hw, h1.1, h1.2]

/-- Key-level description of `entriesFromProps`: a key whose read permission
is denied is absent from the result; a readable key is present with its raw
value, nested stores being replaced by their recursive snapshot. -/
theorem lookup_entriesFromProps :
    ∀ (self : StoreValue) (l : FieldList) (key : String),
      FieldList.lookup (Store.entriesFromProps self l) key =
        if Store.allowedToRead self key = true then
          (FieldList.lookup l key).map (fun v =>
            match v with
            | .vStore cp ca => Store.entries (.vStore cp ca)
            | v => v)
        else none
  | self, .nil, key => by
    simp [Store.entriesFromProps, FieldList.lookup]
  | self, .cons k v rest, key => by
    cases hallow : Store.allowedToRead self k with
    | false =>
      have hstep : Store.entriesFromProps self (.cons k v rest)
          = Store.entriesFromProps self rest := by
        cases v <;> simp [Store.entriesFromProps, hallow]
      rw [hstep, lookup_entriesFromProps self rest key]
      by_cases hk : k = key
      · subst hk
        simp [FieldList.lookup, hallow]
      · simp [FieldList.lookup, hk]
    | true =>
      by_cases hk : k = key
      · subst hk
        cases v <;> simp [Store.entriesFromProps, hallow, FieldList.lookup]
      · cases v <;>
          simp [Store.entriesFromProps, hallow, FieldList.lookup, hk,
            lookup_entriesFromProps self rest key]

/-- One-step unfolding of `deepWriting` for a denied first segment: the
store is returned unchanged. -/
theorem deepWriting_denied (props annots : FieldList) (p0 : String) (rest : List String)
    (v : StoreValue) (hal : Store.allowedToWrite (.vStore props annots) p0 = false) :
    Store.deepWriting (.vStore props annots) (p0 :: rest) v
      = (.vStore props annots, .error "Cannot read property") := by
  cases rest with
  | nil => rw [Store.deepWriting.eq_1, if_pos hal]
  | cons r0 rrest => rw [Store.deepWriting.eq_2, if_pos hal]

/-- One-step unfolding of `deepWriting` for an allowed single-segment
path: plain assignment. -/
theorem deepWriting_single (props annots : FieldList) (p0 : String) (v : StoreValue)
    (hal : Store.allowedToWrite (.vStore props annots) p0 = true) :
    Store.deepWriting (.vStore props annots) [p0] v
      = (.vStore (FieldList.set props p0 v) annots,
         .ok (getProp (FieldList.set props p0 v) p0)) := by
  rw [Store.deepWriting.eq_1, if_neg (by simp [hal])]

/-- One-step unfolding of `deepWriting` for an allowed multi-segment path:
auto-vivify a falsy entry, then recurse into the entry when it is a store,
else raise the JS TypeError. -/
theorem deepWriting_multi (props annots : FieldList) (p0 r0 : String) (rrest : List String)
    (v : StoreValue) (hal : Store.allowedToWrite (.vStore props annots) p0 = true) :
    Store.deepWriting (.vStore props annots) (p0 :: r0 :: rrest) v =
      (match getProp (if truthy (getProp props p0) = false
            then FieldList.set props p0 Store.newStore else props) p0 with
       | .vStore cp ca =>
         (.vStore (FieldList.set (if truthy (getProp props p0) = false
              then FieldList.set props p0 Store.newStore else props) p0
              (Store.deepWriting (.vStore cp ca) (r0 :: rrest) v).1) annots,
          (Store.deepWriting (.vStore cp ca) (r0 :: rrest) v).2)
       | _ =>
         (.vStore (if truthy (getProp props p0) = false
              then FieldList.set props p0 Store.newStore else props) annots,
          .error "TypeError: deepWriting is not a function")) := by
  rw [Store.deepWriting.eq_2, if_neg (by simp [hal])]

/-! ## Claims -/

/-- **C5.** For every key whose effective permission is `none`,
`allowedToRead(key)` and `allowedToWrite(key)` return `false`, `read` of
that key fails with AccessDenied, and a single-value (non-object) `write`
to that key fails with AccessDenied, leaving the store unchanged. -/
theorem C5_none_permission_denies (props annots : FieldList) (key : String) (v : StoreValue)
    (hperm : Store.getAbilityMetadata (.vStore props annots) key = ⟨.vPrim (.pStr "none")⟩)
    (hsplit : splitColon key = [key])
    (hv : typeofIsObject v = false) :
    Store.allowedToRead (.vStore props annots) key = false ∧
    Store.allowedToWrite (.vStore props annots) key = false ∧
    Store.read (.vStore props annots) key = .error "Cannot read property" ∧
    Store.write (.vStore props annots) key v
      = (.vStore props annots, .error "Cannot read property") := by
  have hr : Store.allowedToRead (.vStore props annots) key = false := by
    unfold Store.allowedToRead
    rw [hperm]
    decide
  have hw : Store.allowedToWrite (.vStore props annots) key = false := by
    unfold Store.allowedToWrite
    rw [hperm]
    decide
  refine ⟨hr, hw, ?_, ?_⟩
  · unfold Store.read
    rw [hsplit]
    simp [Store.deepReading, hr]
  · rw [write_nonObject _ _ _ hv, hsplit]
    simp [Store.deepWriting, hw]

theorem C5_none_permission_denies_witness :
    Store.allowedToRead (.vStore (.cons "defaultPolicy" (.vPrim (.pStr "rw")) .nil)
        (.cons "k" (.vPrim (.pStr "none")) .nil)) "k" = false ∧
    Store.allowedToWrite (.vStore (.cons "defaultPolicy" (.vPrim (.pStr "rw")) .nil)
        (.cons "k" (.vPrim (.pStr "none")) .nil)) "k" = false ∧
    Store.read (.vStore (.cons "defaultPolicy" (.vPrim (.pStr "rw")) .nil)
        (.cons "k" (.vPrim (.pStr "none")) .nil)) "k" = .error "Cannot read property" ∧
    Store.write (.vStore (.cons "defaultPolicy" (.vPrim (.pStr "rw")) .nil)
        (.cons "k" (.vPrim (.pStr "none")) .nil)) "k" (.vPrim (.pNum 1))
      = (.vStore (.cons "defaultPolicy" (.vPrim (.pStr "rw")) .nil)
          (.cons "k" (.vPrim (.pStr "none")) .nil), .error "Cannot read property") :=
  C5_none_permission_denies _ _ "k" (.vPrim (.pNum 1)) (by decide) (by decide) (by decide)

/-- **C6.** A key without an explicit annotation resolves to the instance's
current `defaultPolicy`: after the mutation `defaultPolicy = p`, both
capability queries on any unannotated key are those of `new Ability(p)`;
a key with an explicit annotation keeps the annotation's capabilities, for
every value of `defaultPolicy`. -/
theorem C6_unannotated_follows_defaultPolicy (props annots : FieldList) (key p : String) :
    (FieldList.lookup annots key = none →
      Store.allowedToRead (setDefaultPolicy (.vStore props annots) p) key
          = (Ability.mk (.vPrim (.pStr p))).canRead ∧
      Store.allowedToWrite (setDefaultPolicy (.vStore props annots) p) key
          = (Ability.mk (.vPrim (.pStr p))).canWrite) ∧
    (∀ perm, FieldList.lookup annots key = some perm →
      Store.allowedToRead (setDefaultPolicy (.vStore props annots) p) key
          = (Ability.mk perm).canRead ∧
      Store.allowedToWrite (setDefaultPolicy (.vStore props annots) p) key
          = (Ability.mk perm).canWrite) := by
  constructor
  · intro hnone
    have hmeta : Store.getAbilityMetadata (setDefaultPolicy (.vStore props annots) p) key
        = ⟨.vPrim (.pStr p)⟩ := by
      simp [setDefaultPolicy, Store.getAbilityMetadata, hnone, getProp_set_self]
    exact ⟨by simp [Store.allowedToRead, hmeta], by simp [Store.allowedToWrite, hmeta]⟩
  · intro perm hsome
    have hmeta : Store.getAbilityMetadata (setDefaultPolicy (.vStore props annots) p) key
        = ⟨perm⟩ := by
      simp [setDefaultPolicy, Store.getAbilityMetadata, hsome]
    exact ⟨by simp [Store.allowedToRead, hmeta], by simp [Store.allowedToWrite, hmeta]⟩

theorem C6_unannotated_follows_defaultPolicy_witness :
    Store.allowedToRead (setDefaultPolicy (.vStore
        (.cons "defaultPolicy" (.vPrim (.pStr "rw")) .nil)
        (.cons "a" (.vPrim (.pStr "r")) .nil)) "none") "b"
      = (Ability.mk (.vPrim (.pStr "none"))).canRead ∧
    Store.allowedToRead (setDefaultPolicy (.vStore
        (.cons "defaultPolicy" (.vPrim (.pStr "rw")) .nil)
        (.cons "a" (.vPrim (.pStr "r")) .nil)) "none") "a"
      = (Ability.mk (.vPrim (.pStr "r"))).canRead :=
  ⟨((C6_unannotated_follows_defaultPolicy
      (.cons "defaultPolicy" (.vPrim (.pStr "rw")) .nil)
      (.cons "a" (.vPrim (.pStr "r")) .nil) "b" "none").1 (by decide)).1,
   ((C6_unannotated_follows_defaultPolicy
      (.cons "defaultPolicy" (.vPrim (.pStr "rw")) .nil)
      (.cons "a" (.vPrim (.pStr "r")) .nil) "a" "none").2
        (.vPrim (.pStr "r")) (by decide)).1⟩

/-- **C7.** When the first path segment is readable, `deepReading` resolves
the entry (invoking a producer-function entry to obtain its value), and if
the resolved value is not a `Store`, returns it — for *every* remaining
path tail, with no permission check on the trailing segments. -/
theorem C7_read_resolves_producer_and_ignores_trailing (props annots : FieldList)
    (p0 : String) (rest : List String) (resolved : StoreValue)
    (hallow : Store.allowedToRead (.vStore props annots) p0 = true)
    (hres : (match getProp props p0 with | .vFn ret => ret | v => v) = resolved)
    (hns : isStoreInstance resolved = false) :
    Store.deepReading (.vStore props annots) (p0 :: rest) = .ok resolved := by
  subst hres
  rw [Store.deepReading.eq_1, if_neg (by simp [hallow])]
  revert hns
  cases hv : getProp props p0 <;> intro hns
  case vStore cp ca => simp [isStoreInstance] at hns
  case vFn ret =>
    revert hns
    cases ret <;> intro hns
    case vStore cp ca => simp [isStoreInstance] at hns
    all_goals cases rest <;> simp
  all_goals cases rest <;> simp

theorem C7_read_resolves_producer_and_ignores_trailing_witness :
    Store.deepReading (.vStore (.cons "defaultPolicy" (.vPrim (.pStr "rw"))
        (.cons "f" (.vFn (.vPrim (.pNum 2))) .nil)) .nil) ["f", "x", "y"]
      = .ok (.vPrim (.pNum 2)) :=
  C7_read_resolves_producer_and_ignores_trailing
    (.cons "defaultPolicy" (.vPrim (.pStr "rw")) (.cons "f" (.vFn (.vPrim (.pNum 2))) .nil))
    .nil "f" ["x", "y"] (.vPrim (.pNum 2)) (by decide) (by decide) (by decide)

/-- **C8.** Auto-vivification: a multi-segment deep write through a key that
does not yet exist first creates a plain `new Store()` (default policy
`"rw"`) at that key and then descends into it with the remaining segments;
concretely, `write("p:q:r", 7)` on a fresh store succeeds and a subsequent
`read("p:q:r")` returns `7`. -/
theorem C8_autovivification (props annots : FieldList) (p0 r0 : String)
    (rrest : List String) (v : StoreValue)
    (hmiss : FieldList.lookup props p0 = none)
    (hallow : Store.allowedToWrite (.vStore props annots) p0 = true) :
    Store.deepWriting (.vStore props annots) (p0 :: r0 :: rrest) v
      = (.vStore (FieldList.set (FieldList.set props p0 Store.newStore) p0
            (Store.deepWriting Store.newStore (r0 :: rrest) v).1) annots,
         (Store.deepWriting Store.newStore (r0 :: rrest) v).2) ∧
    (Store.write Store.newStore "p:q:r" (.vPrim (.pNum 7))).2 = .ok (.vPrim (.pNum 7)) ∧
    Store.read (Store.write Store.newStore "p:q:r" (.vPrim (.pNum 7))).1 "p:q:r"
      = .ok (.vPrim (.pNum 7)) := by
  refine ⟨?_, by decide, by decide⟩
  have hundef : getProp props p0 = .vUndefined := getProp_of_lookup_none props p0 hmiss
  rw [Store.deepWriting.eq_2, if_neg (by simp [hallow])]
  simp [hundef, truthy, getProp_set_self, Store.newStore]

theorem C8_autovivification_witness :
    Store.deepWriting (.vStore (.cons "defaultPolicy" (.vPrim (.pStr "rw")) .nil) .nil)
        ["a", "b"] (.vPrim (.pNum 3))
      = (.vStore (FieldList.set (FieldList.set
            (.cons "defaultPolicy" (.vPrim (.pStr "rw")) .nil) "a" Store.newStore) "a"
            (Store.deepWriting Store.newStore ["b"] (.vPrim (.pNum 3))).1) .nil,
         (Store.deepWriting Store.newStore ["b"] (.vPrim (.pNum 3))).2) ∧
    (Store.write Store.newStore "p:q:r" (.vPrim (.pNum 7))).2 = .ok (.vPrim (.pNum 7)) ∧
    Store.read (Store.write Store.newStore "p:q:r" (.vPrim (.pNum 7))).1 "p:q:r"
      = .ok (.vPrim (.pNum 7)) :=
  C8_autovivification (.cons "defaultPolicy" (.vPrim (.pStr "rw")) .nil) .nil "a" "b" []
    (.vPrim (.pNum 3)) (by decide) (by decide)

/-- **C3 counterexample.** On a fresh store, the single-value write
`write("p:q", 7)` succeeds and returns `7` — but the entry now stored at
the first segment `"p"` of the store on which `write` was invoked is the
auto-vivified intermediate `Store`, which differs from the returned value,
refuting "the value returned is the value now stored at the first segment
of the path at the invoking level". -/
theorem C3_counterexample :
    (Store.write Store.newStore "p:q" (.vPrim (.pNum 7))).2 = .ok (.vPrim (.pNum 7)) ∧
    isStoreInstance (ownProp (Store.write Store.newStore "p:q" (.vPrim (.pNum 7))).1 "p") = true ∧
    Except.ok (ownProp (Store.write Store.newStore "p:q" (.vPrim (.pNum 7))).1 "p")
      ≠ (Store.write Store.newStore "p:q" (.vPrim (.pNum 7))).2 :=
  ⟨by decide, by decide, by decide⟩

/-- **C3 amended.** A successful single-value deep write returns exactly the
value that was written (the entry stored at the *final* segment of the
deepest level); the claim's "value now stored at the first segment at the
invoking level" describes only the single-segment case. -/
theorem C3_write_returns_written_value :
    (∀ (path : List String) (st st' v res : StoreValue),
      Store.deepWriting st path v = (st', .ok res) → res = v) ∧
    (∀ (p : String) (st st' v res : StoreValue), typeofIsObject v = false →
      Store.write st p v = (st', .ok res) → res = v) := by
  have main : ∀ (path : List String) (st st' v res : StoreValue),
      Store.deepWriting st path v = (st', .ok res) → res = v := by
    intro path
    induction path with
    | nil =>
      intro st st' v res h
      cases st <;> simp [Store.deepWriting] at h
    | cons p0 rest ih =>
      intro st st' v res h
      cases st
      case vStore props annots =>
        cases rest with
        | nil =>
          rw [Store.deepWriting.eq_1] at h
          by_cases hal : Store.allowedToWrite (.vStore props annots) p0 = false
          · simp [hal] at h
          · simp [hal, getProp_set_self] at h
            first
            | exact h.2
            | exact h.2.symm
        | cons r0 rrest =>
          by_cases hal : Store.allowedToWrite (.vStore props annots) p0 = false
          · rw [deepWriting_denied _ _ _ _ _ hal] at h
            simp at h
          · simp only [Bool.not_eq_false] at hal
            rw [deepWriting_multi props annots p0 r0 rrest v hal] at h
            cases hgp : getProp (if truthy (getProp props p0) = false
                then FieldList.set props p0 Store.newStore else props) p0 with
            | vStore cp ca =>
              rw [hgp] at h
              simp only [Prod.mk.injEq] at h
              have h2 := h.2
              exact ih (.vStore cp ca)
                ((Store.deepWriting (.vStore cp ca) (r0 :: rrest) v).1) v res (by rw [← h2])
            | vPrim p => rw [hgp] at h; simp at h
            | vUndefined => rw [hgp] at h; simp at h
            | vArr es => rw [hgp] at h; simp at h
            | vObj fs => rw [hgp] at h; simp at h
            | vFn r => rw [hgp] at h; simp at h
      all_goals simp [Store.deepWriting] at h
  exact ⟨main, fun p st st' v res hobj h =>
    main (splitColon p) st st' v res (by rwa [write_nonObject st p v hobj] at h)⟩

theorem C3_write_returns_written_value_witness :
    StoreValue.vPrim (.pNum 5) = .vPrim (.pNum 5) :=
  C3_write_returns_written_value.1 ["a"] Store.newStore
    (.vStore (.cons "defaultPolicy" (.vPrim (.pStr "rw"))
      (.cons "a" (.vPrim (.pNum 5)) .nil)) .nil)
    (.vPrim (.pNum 5)) (.vPrim (.pNum 5)) (by decide)

/-- **C2 counterexample.** Refuting "for every array, primitive, producer,
or Store value, `write` performs a single deep write of that one value":
on a fresh store, `write("a", [10, 20])` leaves an auto-vivified `Store`
with index keys at `"a"`, not the array (the array is object-typed and is
flattened); and `write("a", null)` performs no deep write at all —
`Object.entries(null)` throws, leaving the store unchanged. -/
theorem C2_counterexample :
    isStoreInstance (ownProp (Store.write Store.newStore "a"
        (.vArr (.cons (.vPrim (.pNum 10)) (.cons (.vPrim (.pNum 20)) .nil)))).1 "a") = true ∧
    ownProp (Store.write Store.newStore "a"
        (.vArr (.cons (.vPrim (.pNum 10)) (.cons (.vPrim (.pNum 20)) .nil)))).1 "a"
      ≠ .vArr (.cons (.vPrim (.pNum 10)) (.cons (.vPrim (.pNum 20)) .nil)) ∧
    Store.write Store.newStore "a" (.vPrim .pNull)
      = (Store.newStore, .error "TypeError: Cannot convert null to object") :=
  ⟨by decide, by decide, by decide⟩

/-- **C2 amended.** `write(path, value)` batches flattened writes exactly
when `typeof value === "object"` — for plain objects, arrays and `Store`
values (for `null` the flattening itself throws a TypeError before any
write happens) — and performs a single deep write of the one value at the
given path for primitives, `undefined` and producer functions; every
flattened pair carries a non-object value. -/
theorem C2_flattening_characterization (st : StoreValue) (path : String) (v : StoreValue) :
    (typeofIsObject v = false →
      Store.write st path v = Store.deepWriting st (splitColon path) v) ∧
    (typeofIsObject v = true →
      Store.write st path v =
        match Store.deepCreatingPathFromJSONObject (some path) v with
        | .error e => (st, .error e)
        | .ok pairs =>
          match Store.writeList st pairs with
          | (st', .ok _) => (st', .ok v)
          | (st', .error e) => (st', .error e)) ∧
    (v = .vPrim .pNull →
      Store.write st path v = (st, .error "TypeError: Cannot convert null to object")) ∧
    (∀ pairs, Store.deepCreatingPathFromJSONObject (some path) v = .ok pairs →
      ∀ pv ∈ pairs, typeofIsObject pv.2 = false) := by
  refine ⟨fun h => write_nonObject st path v h, fun h => by simp [Store.write, h], ?_, ?_⟩
  · rintro rfl
    simp [Store.write, Store.deepCreatingPathFromJSONObject, typeofIsObject]
  · exact fun pairs h => deepCreating_value_notObject (some path) v pairs h

theorem C2_flattening_characterization_witness :
    Store.write Store.newStore "x" (.vPrim (.pNum 1))
      = Store.deepWriting Store.newStore (splitColon "x") (.vPrim (.pNum 1)) ∧
    Store.write Store.newStore "x" (.vPrim .pNull)
      = (Store.newStore, .error "TypeError: Cannot convert null to object") :=
  ⟨(C2_flattening_characterization Store.newStore "x" (.vPrim (.pNum 1))).1 (by decide),
   (C2_flattening_characterization Store.newStore "x" (.vPrim .pNull)).2.2.1 rfl⟩

/-- **C4.** `entries()` snapshot: a key whose read permission is denied is
omitted entirely; a readable key is included with its raw entry — a nested
`Store` value is replaced by its own recursive `entries()` snapshot (so
denied keys inside nested stores are omitted recursively by the same rule),
and a producer-function entry is included as-is, never invoked. -/
theorem C4_entries_permission_filter (props annots : FieldList) (key : String) :
    Store.entries (.vStore props annots)
      = .vObj (Store.entriesFromProps (.vStore props annots) props) ∧
    (Store.allowedToRead (.vStore props annots) key = false →
      FieldList.lookup (Store.entriesFromProps (.vStore props annots) props) key = none) ∧
    (∀ v, Store.allowedToRead (.vStore props annots) key = true →
      FieldList.lookup props key = some v →
      FieldList.lookup (Store.entriesFromProps (.vStore props annots) props) key
        = some (match v with
            | .vStore cp ca => Store.entries (.vStore cp ca)
            | v => v)) ∧
    (∀ ret, Store.allowedToRead (.vStore props annots) key = true →
      FieldList.lookup props key = some (.vFn ret) →
      FieldList.lookup (Store.entriesFromProps (.vStore props annots) props) key
        = some (.vFn ret)) := by
  refine ⟨by rw [Store.entries], ?_, ?_, ?_⟩
  · intro h
    rw [lookup_entriesFromProps, if_neg (by simp [h])]
  · intro v hr hl
    rw [lookup_entriesFromProps, if_pos hr, hl]
    rfl
  · intro ret hr hl
    rw [lookup_entriesFromProps, if_pos hr, hl]
    rfl

theorem C4_entries_permission_filter_witness :
    FieldList.lookup (Store.entriesFromProps
      (.vStore (.cons "defaultPolicy" (.vPrim (.pStr "rw"))
          (.cons "a" (.vPrim (.pNum 1)) (.cons "f" (.vFn (.vPrim (.pNum 2))) .nil)))
        (.cons "a" (.vPrim (.pStr "none")) .nil))
      (.cons "defaultPolicy" (.vPrim (.pStr "rw"))
          (.cons "a" (.vPrim (.pNum 1)) (.cons "f" (.vFn (.vPrim (.pNum 2))) .nil)))) "a"
      = none ∧
    FieldList.lookup (Store.entriesFromProps
      (.vStore (.cons "defaultPolicy" (.vPrim (.pStr "rw"))
          (.cons "a" (.vPrim (.pNum 1)) (.cons "f" (.vFn (.vPrim (.pNum 2))) .nil)))
        (.cons "a" (.vPrim (.pStr "none")) .nil))
      (.cons "defaultPolicy" (.vPrim (.pStr "rw"))
          (.cons "a" (.vPrim (.pNum 1)) (.cons "f" (.vFn (.vPrim (.pNum 2))) .nil)))) "f"
      = some (.vFn (.vPrim (.pNum 2))) :=
  ⟨(C4_entries_permission_filter
      (.cons "defaultPolicy" (.vPrim (.pStr "rw"))
        (.cons "a" (.vPrim (.pNum 1)) (.cons "f" (.vFn (.vPrim (.pNum 2))) .nil)))
      (.cons "a" (.vPrim (.pStr "none")) .nil) "a").2.1 (by decide),
   (C4_entries_permission_filter
      (.cons "defaultPolicy" (.vPrim (.pStr "rw"))
        (.cons "a" (.vPrim (.pNum 1)) (.cons "f" (.vFn (.vPrim (.pNum 2))) .nil)))
      (.cons "a" (.vPrim (.pStr "none")) .nil) "f").2.2.2
      (.vPrim (.pNum 2)) (by decide) (by decide)⟩

/-- **C10.** Whenever the key `"defaultPolicy"` is readable (in particular
on every plain store, whose default policy is `"rw"`), the object returned
by `entries()` contains the key `"defaultPolicy"` mapped to the store's
default-policy string, even though no such entry was ever written:
`Object.entries(this)` enumerates all own properties, `defaultPolicy`
included. -/
theorem C10_entries_exposes_defaultPolicy (props annots : FieldList) (dp : String)
    (hdp : FieldList.lookup props "defaultPolicy" = some (.vPrim (.pStr dp)))
    (hread : Store.allowedToRead (.vStore props annots) "defaultPolicy" = true) :
    FieldList.lookup (objFields (Store.entries (.vStore props annots))) "defaultPolicy"
      = some (.vPrim (.pStr dp)) := by
  have hobj : objFields (Store.entries (.vStore props annots))
      = Store.entriesFromProps (.vStore props annots) props := by
    rw [Store.entries, objFields]
  rw [hobj, lookup_entriesFromProps, if_pos hread, hdp]
  rfl

theorem C10_entries_exposes_defaultPolicy_witness :
    FieldList.lookup (objFields (Store.entries Store.newStore)) "defaultPolicy"
      = some (.vPrim (.pStr "rw")) :=
  C10_entries_exposes_defaultPolicy
    (.cons "defaultPolicy" (.vPrim (.pStr "rw")) .nil) .nil "rw" (by decide) (by decide)

/-- **C9.** A batched structured write (`writeEntries`, or `write` of an
object-typed value) that fails with AccessDenied on one of its flattened
pairs leaves the pairs processed before the failing one committed — the
final state is the failing deep write's post-state built on the state that
committed the prefix — and the store level whose segment was denied is
returned unmutated (the permission check precedes any assignment). -/
theorem C9_batch_failure_commits_prefix (st X st' : StoreValue) (e : String)
    (pairs : List (String × StoreValue))
    (hflat : Store.deepCreatingPathFromJSONObject none X = .ok pairs)
    (hfail : Store.writeEntries st X = (st', .error e)) :
    (∃ pre p v suf stPre, pairs = pre ++ (p, v) :: suf ∧
      Store.writeList st pre = (stPre, .ok ()) ∧
      Store.deepWriting stPre (splitColon p) v = (st', .error e)) ∧
    (∀ (props annots : FieldList) (p0 : String) (rest : List String) (w : StoreValue),
      Store.allowedToWrite (.vStore props annots) p0 = false →
      Store.deepWriting (.vStore props annots) (p0 :: rest) w
        = (.vStore props annots, .error "Cannot read property")) ∧
    (∀ (path : String) (Y stB stB' : StoreValue) (eB : String)
        (pairsB : List (String × StoreValue)),
      typeofIsObject Y = true →
      Store.deepCreatingPathFromJSONObject (some path) Y = .ok pairsB →
      Store.write stB path Y = (stB', .error eB) →
      ∃ pre p v suf stPre, pairsB = pre ++ (p, v) :: suf ∧
        Store.writeList stB pre = (stPre, .ok ()) ∧
        Store.deepWriting stPre (splitColon p) v = (stB', .error eB)) := by
  refine ⟨?_, fun props annots p0 rest w h => deepWriting_denied props annots p0 rest w h, ?_⟩
  · have hwl : Store.writeList st pairs = (st', .error e) := by
      have h2 := hfail
      unfold Store.writeEntries at h2
      rw [hflat] at h2
      exact h2
    exact writeList_error_decomp pairs st st' e hwl
  · intro path Y stB stB' eB pairsB hobj hflatB hw
    have hthis := hw
    rw [show Store.write stB path Y = (match Store.writeList stB pairsB with
        | (st1, .ok _) => (st1, .ok Y)
        | (st1, .error e1) => (st1, .error e1)) from by
      simp [Store.write, hobj, hflatB]] at hthis
    cases hres : Store.writeList stB pairsB with
    | mk s r =>
      rw [hres] at hthis
      cases r with
      | ok u => simp at hthis
      | error e1 =>
        simp only [Prod.mk.injEq, Except.error.injEq] at hthis
        obtain ⟨h1, h2⟩ := hthis
        subst h1
        subst h2
        exact writeList_error_decomp pairsB stB s e1 hres

theorem C9_batch_failure_commits_prefix_witness :
    (∃ pre p v suf stPre,
      [(("a" : String), StoreValue.vPrim (.pNum 1)), (("b" : String), StoreValue.vPrim (.pNum 2))]
        = pre ++ (p, v) :: suf ∧
      Store.writeList (.vStore (.cons "defaultPolicy" (.vPrim (.pStr "rw")) .nil)
          (.cons "b" (.vPrim (.pStr "r")) .nil)) pre = (stPre, .ok ()) ∧
      Store.deepWriting stPre (splitColon p) v
        = (.vStore (.cons "defaultPolicy" (.vPrim (.pStr "rw"))
              (.cons "a" (.vPrim (.pNum 1)) .nil))
            (.cons "b" (.vPrim (.pStr "r")) .nil), .error "Cannot read property")) ∧
    (∀ (props annots : FieldList) (p0 : String) (rest : List String) (w : StoreValue),
      Store.allowedToWrite (.vStore props annots) p0 = false →
      Store.deepWriting (.vStore props annots) (p0 :: rest) w
        = (.vStore props annots, .error "Cannot read property")) ∧
    (∀ (path : String) (Y stB stB' : StoreValue) (eB : String)
        (pairsB : List (String × StoreValue)),
      typeofIsObject Y = true →
      Store.deepCreatingPathFromJSONObject (some path) Y = .ok pairsB →
      Store.write stB path Y = (stB', .error eB) →
      ∃ pre p v suf stPre, pairsB = pre ++ (p, v) :: suf ∧
        Store.writeList stB pre = (stPre, .ok ()) ∧
        Store.deepWriting stPre (splitColon p) v = (stB', .error eB)) :=
  C9_batch_failure_commits_prefix
    (.vStore (.cons "defaultPolicy" (.vPrim (.pStr "rw")) .nil)
      (.cons "b" (.vPrim (.pStr "r")) .nil))
    (.vObj (.cons "a" (.vPrim (.pNum 1)) (.cons "b" (.vPrim (.pNum 2)) .nil)))
    (.vStore (.cons "defaultPolicy" (.vPrim (.pStr "rw"))
        (.cons "a" (.vPrim (.pNum 1)) .nil))
      (.cons "b" (.vPrim (.pStr "r")) .nil))
    "Cannot read property"
    [("a", .vPrim (.pNum 1)), ("b", .vPrim (.pNum 2))]
    (by decide) (by decide)

/-! ## String and path-splitting lemmas -/

theorem splitColonChars_ne_nil : ∀ (cs : List Char), splitColonChars cs ≠ []
  | [] => by simp [splitColonChars]
  | c :: cs => by
    have ih := splitColonChars_ne_nil cs
    simp only [splitColonChars]
    by_cases h : c = ':'
    · simp [h]
    · simp only [h, if_neg]
      cases hr : splitColonChars cs with
      | nil => exact absurd hr ih
      | cons s ss => simp

theorem splitColon_ne_nil (s : String) : splitColon s ≠ [] :=
  splitColonChars_ne_nil s.data

theorem splitColonChars_no_colon : ∀ (cs : List Char), (∀ c ∈ cs, c ≠ ':') →
    splitColonChars cs = [String.mk cs]
  | [], _ => rfl
  | c :: cs, h => by
    have ih := splitColonChars_no_colon cs (fun c' hc' => h c' (List.mem_cons_of_mem c hc'))
    have hc : ¬(c = ':') := h c (List.mem_cons_self c cs)
    simp [splitColonChars, hc, ih]

theorem splitColon_colonFree (k : String) (h : colonFree k = true) :
    splitColon k = [k] := by
  have hchars : ∀ c ∈ k.data, c ≠ ':' := by
    intro c hc
    have := (List.all_eq_true.mp h) c hc
    simpa using this
  exact splitColonChars_no_colon k.data hchars

theorem splitColonChars_prefix : ∀ (cs ds : List Char), (∀ c ∈ cs, c ≠ ':') →
    splitColonChars (cs ++ ':' :: ds) = String.mk cs :: splitColonChars ds
  | [], ds, _ => by
    simp only [List.nil_append, splitColonChars]
    cases hr : splitColonChars ds with
    | nil => exact absurd hr (splitColonChars_ne_nil ds)
    | cons s ss => simp
  | c :: cs, ds, h => by
    have ih := splitColonChars_prefix cs ds (fun c' hc' => h c' (List.mem_cons_of_mem c hc'))
    have hc : ¬(c = ':') := h c (List.mem_cons_self c cs)
    simp [splitColonChars, hc, ih]

/-- Splitting a colon-joined path peels off the (separator-free) head
segment. -/
theorem splitColon_prefix (k p : String) (hk : colonFree k = true) :
    splitColon (k ++ ":" ++ p) = k :: splitColon p := by
  have hdata : (k ++ ":" ++ p).data = k.data ++ ':' :: p.data := by
    simp [String.data_append]
  have hchars : ∀ c ∈ k.data, c ≠ ':' := by
    intro c hc
    have := (List.all_eq_true.mp hk) c hc
    simpa using this
  unfold splitColon
  rw [hdata, splitColonChars_prefix k.data p.data hchars]

theorem string_append_colon_ne_empty (b c : String) : b ++ ":" ++ c ≠ "" := by
  intro h
  have : (b ++ ":" ++ c).data = "".data := by rw [h]
  simp [String.data_append] at this

theorem string_append_colon_assoc (b c k : String) :
    (b ++ ":" ++ c) ++ ":" ++ k = b ++ ":" ++ (c ++ ":" ++ k) := by
  apply String.ext
  simp [String.data_append]

/-- `childPath` on a nonempty base is plain colon concatenation. -/
theorem childPath_some_ne (b k : String) (hb : b ≠ "") :
    Store.childPath (some b) k = b ++ ":" ++ k := by
  simp [Store.childPath, hb]

/-! ## Field-list bookkeeping lemmas -/

theorem FieldList.append_assoc : ∀ (a b c : FieldList),
    FieldList.append (FieldList.append a b) c = FieldList.append a (FieldList.append b c)
  | .nil, b, c => rfl
  | .cons k v rest, b, c => by
    simp [FieldList.append, FieldList.append_assoc rest b c]

theorem FieldList.append_cons_nil (a : FieldList) (k : String) (v : StoreValue)
    (b : FieldList) :
    FieldList.append (FieldList.append a (.cons k v .nil)) b
      = FieldList.append a (.cons k v b) := by
  rw [FieldList.append_assoc]
  rfl

theorem FieldList.lookup_append_of_none : ∀ (a b : FieldList) (key : String),
    FieldList.lookup a key = none →
    FieldList.lookup (FieldList.append a b) key = FieldList.lookup b key
  | .nil, b, key, _ => rfl
  | .cons k v rest, b, key, h => by
    by_cases hk : k = key
    · simp [FieldList.lookup, hk] at h
    · simp only [FieldList.lookup, hk, if_neg] at h
      simp [FieldList.append, FieldList.lookup, hk,
        FieldList.lookup_append_of_none rest b key h]

theorem FieldList.set_of_lookup_none : ∀ (l : FieldList) (k : String) (v : StoreValue),
    FieldList.lookup l k = none →
    FieldList.set l k v = FieldList.append l (.cons k v .nil)
  | .nil, k, v, _ => rfl
  | .cons k' w rest, k, v, h => by
    by_cases hk : k' = k
    · simp [FieldList.lookup, hk] at h
    · simp only [FieldList.lookup, hk, if_neg] at h
      simp [FieldList.set, FieldList.append, hk,
        FieldList.set_of_lookup_none rest k v h]

theorem FieldList.set_id : ∀ (l : FieldList) (k : String) (v : StoreValue),
    FieldList.lookup l k = some v → FieldList.set l k v = l
  | .nil, k, v, h => by simp [FieldList.lookup] at h
  | .cons k' w rest, k, v, h => by
    by_cases hk : k' = k
    · subst hk
      simp only [FieldList.lookup, if_pos, Option.some.injEq] at h
      simp [FieldList.set, h]
    · simp only [FieldList.lookup, hk, if_neg] at h
      simp [FieldList.set, hk, FieldList.set_id rest k v h]

theorem FieldList.set_cons_ne (k' : String) (w : StoreValue) (l : FieldList)
    (k : String) (v : StoreValue) (h : k' ≠ k) :
    FieldList.set (.cons k' w l) k v = .cons k' w (FieldList.set l k v) := by
  simp [FieldList.set, h]

theorem keysAbsent_cons_iff (k : String) (v : StoreValue) (rest done : FieldList) :
    keysAbsent (.cons k v rest) done = true ↔
      FieldList.lookup done k = none ∧ keysAbsent rest done = true := by
  simp [keysAbsent, Option.isNone_iff_eq_none]

/-- Extending `done` with a key that no remaining field uses keeps the
remaining keys absent. -/
theorem keysAbsent_extend : ∀ (fields done : FieldList) (k : String) (x : StoreValue),
    keysAbsent fields done = true → keyNotIn k fields = true →
    keysAbsent fields (FieldList.append done (.cons k x .nil)) = true
  | .nil, done, k, x, _, _ => rfl
  | .cons k' v rest, done, k, x, habs, hnot => by
    obtain ⟨h1, h2⟩ := (keysAbsent_cons_iff k' v rest done).mp habs
    obtain ⟨hne, hnot'⟩ : (k' ≠ k) ∧ keyNotIn k rest = true := by
      simpa [keyNotIn, Bool.and_eq_true] using hnot
    apply (keysAbsent_cons_iff k' v rest _).mpr
    constructor
    · rw [FieldList.lookup_append_of_none done _ k' h1]
      simp [FieldList.lookup, Ne.symm hne]
    · exact keysAbsent_extend rest done k x h2 hnot'

/-! ## Plain-store write machinery (for the round-trip claim) -/

theorem prefixPairs_nil (k : String) : prefixPairs k [] = [] := rfl

theorem prefixPairs_cons (k p : String) (v : StoreValue) (ps : List (String × StoreValue)) :
    prefixPairs k ((p, v) :: ps) = (k ++ ":" ++ p, v) :: prefixPairs k ps := rfl

theorem prefixPairs_append (k : String) (a b : List (String × StoreValue)) :
    prefixPairs k (a ++ b) = prefixPairs k a ++ prefixPairs k b := by
  simp [prefixPairs]

/-- On a store with no annotations and `defaultPolicy = "rw"`, every key is
writable. -/
theorem plain_allowedToWrite (done : FieldList) (k : String) :
    Store.allowedToWrite (.vStore (.cons "defaultPolicy" (.vPrim (.pStr "rw")) done) .nil) k
      = true := by
  simp [Store.allowedToWrite, Store.getAbilityMetadata, FieldList.lookup, getProp,
    Ability.canWrite]

/-- On a store with no annotations and `defaultPolicy = "rw"`, every key is
readable. -/
theorem plain_allowedToRead (done : FieldList) (k : String) :
    Store.allowedToRead (.vStore (.cons "defaultPolicy" (.vPrim (.pStr "rw")) done) .nil) k
      = true := by
  simp [Store.allowedToRead, Store.getAbilityMetadata, FieldList.lookup, getProp,
    Ability.canRead]

/-- `deepWriting` returns a store with the same annotation table. -/
theorem deepWriting_fst_isStore (path : List String) (cp ca : FieldList) (v : StoreValue) :
    ∃ cp', (Store.deepWriting (.vStore cp ca) path v).1 = .vStore cp' ca := by
  cases path with
  | nil => exact ⟨cp, rfl⟩
  | cons p0 rest =>
    cases rest with
    | nil =>
      rw [Store.deepWriting.eq_1]
      by_cases hal : Store.allowedToWrite (.vStore cp ca) p0 = false
      · rw [if_pos hal]
        exact ⟨cp, rfl⟩
      · rw [if_neg hal]
        exact ⟨FieldList.set cp p0 v, rfl⟩
    | cons r0 rrest =>
      rw [Store.deepWriting.eq_2]
      by_cases hal : Store.allowedToWrite (.vStore cp ca) p0 = false
      · rw [if_pos hal]
        exact ⟨cp, rfl⟩
      · rw [if_neg hal]
        simp only []
        split
        · exact ⟨_, rfl⟩
        · exact ⟨_, rfl⟩

theorem writeList_fst_isStore : ∀ (ps : List (String × StoreValue)) (cp ca : FieldList),
    ∃ cp', (Store.writeList (.vStore cp ca) ps).1 = .vStore cp' ca
  | [], cp, ca => ⟨cp, rfl⟩
  | (p, v) :: rest, cp, ca => by
    obtain ⟨cp1, hcp1⟩ := deepWriting_fst_isStore (splitColon p) cp ca v
    cases hw : Store.deepWriting (.vStore cp ca) (splitColon p) v with
    | mk c1 r =>
      have hc1 : c1 = .vStore cp1 ca := by rw [hw] at hcp1; exact hcp1
      subst hc1
      cases r with
      | ok u =>
        obtain ⟨cp', h'⟩ := writeList_fst_isStore rest cp1 ca
        exact ⟨cp', by simp [Store.writeList, hw, h']⟩
      | error e => exact ⟨cp1, by simp [Store.writeList, hw]⟩

/-- Deep write through a key whose current entry is a (truthy) nested
store: the parent updates that key with the child's post-state and passes
the child's result through. -/
theorem deepWriting_into_child (props annots : FieldList) (k : String) (cp ca : FieldList)
    (tail : List String) (v : StoreValue) (t0 : String) (trest : List String)
    (htail : tail = t0 :: trest)
    (hal : Store.allowedToWrite (.vStore props annots) k = true)
    (hget : getProp props k = .vStore cp ca) :
    Store.deepWriting (.vStore props annots) (k :: tail) v
      = (.vStore (FieldList.set props k (Store.deepWriting (.vStore cp ca) tail v).1) annots,
         (Store.deepWriting (.vStore cp ca) tail v).2) := by
  subst htail
  rw [deepWriting_multi props annots k t0 trest v hal]
  have htr : truthy (getProp props k) = true := by rw [hget]; rfl
  rw [if_neg (by simp [htr]), hget]

theorem writeList_append : ∀ (a b : List (String × StoreValue)) (st : StoreValue),
    Store.writeList st (a ++ b) =
      match Store.writeList st a with
      | (st1, .ok _) => Store.writeList st1 b
      | (st1, .error e) => (st1, .error e)
  | [], b, st => by simp [Store.writeList]
  | (p, v) :: rest, b, st => by
    cases hw : Store.deepWriting st (splitColon p) v with
    | mk s1 r =>
      cases r with
      | ok u => simp [Store.writeList, hw, writeList_append rest b s1]
      | error e => simp [Store.writeList, hw]

/-- Writing a batch of pairs whose paths all start with `k ++ ":"`, on a
plain store whose entry at `k` is a nested store, is the same as writing
the un-prefixed batch inside that nested store. -/
theorem writeList_prefixed : ∀ (ps : List (String × StoreValue)) (done : FieldList)
    (k : String) (cp ca : FieldList),
    colonFree k = true → k ≠ "defaultPolicy" →
    FieldList.lookup done k = some (.vStore cp ca) →
    Store.writeList (.vStore (.cons "defaultPolicy" (.vPrim (.pStr "rw")) done) .nil)
        (prefixPairs k ps)
      = (.vStore (.cons "defaultPolicy" (.vPrim (.pStr "rw"))
            (FieldList.set done k (Store.writeList (.vStore cp ca) ps).1)) .nil,
         (Store.writeList (.vStore cp ca) ps).2)
  | [], done, k, cp, ca, _, _, hc => by
    simp [prefixPairs, Store.writeList, FieldList.set_id done k _ hc]
  | (p, v) :: rest, done, k, cp, ca, hk, hkdp, hc => by
    have hsplit : splitColon (k ++ ":" ++ p) = k :: splitColon p := splitColon_prefix k p hk
    obtain ⟨t0, trest, htail⟩ : ∃ t0 trest, splitColon p = t0 :: trest := by
      cases hsp : splitColon p with
      | nil => exact absurd hsp (splitColon_ne_nil p)
      | cons a b => exact ⟨a, b, rfl⟩
    have hdpk : ¬("defaultPolicy" = k) := fun h => hkdp h.symm
    have hget : getProp (.cons "defaultPolicy" (.vPrim (.pStr "rw")) done) k
        = .vStore cp ca := by
      simp [getProp, FieldList.lookup, hdpk, hc]
    have hstep := deepWriting_into_child
      (.cons "defaultPolicy" (.vPrim (.pStr "rw")) done) .nil
      k cp ca (splitColon p) v t0 trest htail
      (plain_allowedToWrite done k) hget
    obtain ⟨cp1, hcp1⟩ := deepWriting_fst_isStore (splitColon p) cp ca v
    cases hw : Store.deepWriting (.vStore cp ca) (splitColon p) v with
    | mk c1 r =>
      have hc1 : c1 = .vStore cp1 ca := by rw [hw] at hcp1; exact hcp1
      subst hc1
      rw [hw] at hstep
      cases r with
      | ok u =>
        have hlook : FieldList.lookup (FieldList.set done k (.vStore cp1 ca)) k
            = some (.vStore cp1 ca) := FieldList.lookup_set_self done k _
        have ih := writeList_prefixed rest (FieldList.set done k (.vStore cp1 ca))
          k cp1 ca hk hkdp hlook
        rw [prefixPairs_cons, Store.writeList.eq_2, hsplit, hstep]
        simp only []
        rw [FieldList.set_cons_ne _ _ _ _ _ hdpk] at *
        rw [ih, FieldList.set_set]
        simp [Store.writeList, hw]
      | error e =>
        rw [prefixPairs_cons, Store.writeList.eq_2, hsplit, hstep]
        simp only []
        rw [FieldList.set_cons_ne _ _ _ _ _ hdpk]
        simp [Store.writeList, hw]

theorem goodFields_cons_iff (k : String) (v : StoreValue) (rest : FieldList) :
    goodFields (.cons k v rest) = true ↔
      goodKey k = true ∧ goodEntryVal v = true ∧ goodFields rest = true := by
  simp [goodFields, Bool.and_eq_true, and_assoc]

theorem goodLeaf_not_object (v : StoreValue) (h : goodLeaf v = true) :
    typeofIsObject v = false := by
  cases v with
  | vPrim p => cases p <;> simp_all [goodLeaf, typeofIsObject]
  | _ => simp_all [goodLeaf]

theorem goodEntryVal_object (v : StoreValue) (hg : goodEntryVal v = true)
    (ho : typeofIsObject v = true) :
    ∃ f2, v = .vObj f2 ∧ isNilF f2 = false ∧ nodupKeys f2 = true ∧ goodFields f2 = true := by
  cases v with
  | vObj f2 =>
    refine ⟨f2, rfl, ?_, ?_, ?_⟩ <;>
      simp_all [goodEntryVal, Bool.and_eq_true]
  | vPrim p => cases p <;> simp_all [goodEntryVal, goodLeaf, typeofIsObject]
  | _ => simp_all [goodEntryVal, goodLeaf, typeofIsObject]

theorem goodEntryVal_not_object_leaf (v : StoreValue) (hg : goodEntryVal v = true)
    (ho : typeofIsObject v = false) : goodLeaf v = true := by
  cases v <;> simp_all [goodEntryVal, typeofIsObject]

/-- Flattening a round-trippable field list under a longer base path just
prefixes every produced path: the base path only ever gets concatenated in
front. -/
theorem deepCreatingFromFields_prefix : ∀ (fields : FieldList) (b c : String),
    goodFields fields = true → b ≠ "" → c ≠ "" →
    Store.deepCreatingFromFields (some (b ++ ":" ++ c)) fields
      = (Store.deepCreatingFromFields (some c) fields).map (prefixPairs b)
  | .nil, b, c, _, _, _ => by
    simp [Store.deepCreatingFromFields, Except.map, prefixPairs]
  | .cons k v rest, b, c, hgood, hb, hc => by
    obtain ⟨hk, hv, hrest⟩ := (goodFields_cons_iff k v rest).mp hgood
    have ihrest := deepCreatingFromFields_prefix rest b c hrest hb hc
    have hbc : b ++ ":" ++ c ≠ "" := string_append_colon_ne_empty b c
    have hcbp1 : Store.childPath (some (b ++ ":" ++ c)) k = b ++ ":" ++ (c ++ ":" ++ k) := by
      rw [childPath_some_ne _ _ hbc, string_append_colon_assoc]
    have hcbp2 : Store.childPath (some c) k = c ++ ":" ++ k := childPath_some_ne _ _ hc
    by_cases hobj : typeofIsObject v = false
    · rw [Store.deepCreatingFromFields.eq_2, Store.deepCreatingFromFields.eq_2,
        hcbp1, hcbp2]
      simp only [hobj, if_pos, ihrest]
      cases hr : Store.deepCreatingFromFields (some c) rest with
      | error e => simp [Except.map]
      | ok rp => simp [Except.map, prefixPairs_cons]
    · have hobj' : typeofIsObject v = true := by
        revert hobj
        cases typeofIsObject v <;> simp
      obtain ⟨f2, rfl, hne2, hnodup2, hgf2⟩ := goodEntryVal_object v hv hobj'
      have hck : c ++ ":" ++ k ≠ "" := string_append_colon_ne_empty c k
      have ihf2 := deepCreatingFromFields_prefix f2 b (c ++ ":" ++ k) hgf2 hb hck
      rw [Store.deepCreatingFromFields.eq_2, Store.deepCreatingFromFields.eq_2,
        hcbp1, hcbp2]
      simp only [hobj', Bool.true_eq_false, if_neg, ite_false]
      rw [show Store.deepCreatingPathFromJSONObject (some (b ++ ":" ++ (c ++ ":" ++ k)))
            (.vObj f2) = Store.deepCreatingFromFields (some (b ++ ":" ++ (c ++ ":" ++ k))) f2
          from by rw [Store.deepCreatingPathFromJSONObject]]
      rw [show Store.deepCreatingPathFromJSONObject (some (c ++ ":" ++ k)) (.vObj f2)
            = Store.deepCreatingFromFields (some (c ++ ":" ++ k)) f2
          from by rw [Store.deepCreatingPathFromJSONObject]]
      rw [ihf2]
      cases hh : Store.deepCreatingFromFields (some (c ++ ":" ++ k)) f2 with
      | error e => simp [Except.map]
      | ok hp =>
        simp only [Except.map, ihrest]
        cases hr : Store.deepCreatingFromFields (some c) rest with
        | error e => simp [Except.map]
        | ok rp => simp [Except.map, prefixPairs_append]

/-- Flattening a round-trippable field list always succeeds, and produces at
least one pair when the list is nonempty. -/
theorem deepCreatingFromFields_good_ok : ∀ (fields : FieldList) (bp : Option String),
    goodFields fields = true →
    ∃ pairs, Store.deepCreatingFromFields bp fields = .ok pairs ∧
      (isNilF fields = false → pairs ≠ [])
  | .nil, bp, _ => ⟨[], by simp [Store.deepCreatingFromFields], by simp [isNilF]⟩
  | .cons k v rest, bp, hgood => by
    obtain ⟨hk, hv, hrest⟩ := (goodFields_cons_iff k v rest).mp hgood
    obtain ⟨rp, hrp, _⟩ := deepCreatingFromFields_good_ok rest bp hrest
    by_cases hobj : typeofIsObject v = false
    · refine ⟨(Store.childPath bp k, v) :: rp, ?_, by simp⟩
      rw [Store.deepCreatingFromFields.eq_2]
      simp [hobj, hrp]
    · have hobj' : typeofIsObject v = true := by
        revert hobj
        cases typeofIsObject v <;> simp
      obtain ⟨f2, rfl, hne2, hnodup2, hgf2⟩ := goodEntryVal_object v hv hobj'
      obtain ⟨hp, hhp, hne⟩ :=
        deepCreatingFromFields_good_ok f2 (some (Store.childPath bp k)) hgf2
      refine ⟨hp ++ rp, ?_, ?_⟩
      · rw [Store.deepCreatingFromFields.eq_2]
        simp only [hobj', Bool.true_eq_false, if_neg, ite_false]
        rw [show Store.deepCreatingPathFromJSONObject (some (Store.childPath bp k))
              (.vObj f2) = Store.deepCreatingFromFields (some (Store.childPath bp k)) f2
            from by rw [Store.deepCreatingPathFromJSONObject]]
        simp [hhp, hrp]
      · intro _
        have := hne hne2
        simp [this]

theorem FieldList.append_nil : ∀ (l : FieldList), FieldList.append l .nil = l
  | .nil => rfl
  | .cons k v rest => by simp [FieldList.append, FieldList.append_nil rest]

theorem nodupKeys_cons_iff (k : String) (v : StoreValue) (rest : FieldList) :
    nodupKeys (.cons k v rest) = true ↔ keyNotIn k rest = true ∧ nodupKeys rest = true := by
  simp [nodupKeys, Bool.and_eq_true]

theorem goodKey_iff (k : String) :
    goodKey k = true ↔ k ≠ "" ∧ k ≠ "defaultPolicy" ∧ colonFree k = true := by
  simp [goodKey, Bool.and_eq_true, and_assoc]

theorem storeEntryVal_leaf (v : StoreValue) (h : goodLeaf v = true) :
    storeEntryVal v = v := by
  cases v <;> simp_all [goodLeaf, storeEntryVal]

theorem augEntryVal_leaf (v : StoreValue) (h : goodLeaf v = true) :
    augEntryVal v = v := by
  cases v <;> simp_all [goodLeaf, augEntryVal]

/-- A deep write through a missing key behaves as if the auto-vivified
fresh store had already been assigned: the assignment happens before the
descent. -/
theorem deepWriting_autoviv (done : FieldList) (k t0 : String) (ts : List String)
    (v : StoreValue) (hmiss : FieldList.lookup done k = none) (hkdp : k ≠ "defaultPolicy") :
    Store.deepWriting (.vStore (.cons "defaultPolicy" (.vPrim (.pStr "rw")) done) .nil)
        (k :: t0 :: ts) v
      = Store.deepWriting (.vStore (.cons "defaultPolicy" (.vPrim (.pStr "rw"))
            (FieldList.set done k Store.newStore)) .nil) (k :: t0 :: ts) v := by
  have hdpk : ¬("defaultPolicy" = k) := fun h => hkdp h.symm
  have hget1 : getProp (.cons "defaultPolicy" (.vPrim (.pStr "rw")) done) k = .vUndefined := by
    simp [getProp, FieldList.lookup, hdpk, hmiss]
  have hget2 : getProp (.cons "defaultPolicy" (.vPrim (.pStr "rw"))
      (FieldList.set done k Store.newStore)) k = Store.newStore := by
    simp [getProp, FieldList.lookup, hdpk, FieldList.lookup_set_self]
  rw [deepWriting_multi _ _ _ _ _ _ (plain_allowedToWrite done k),
      deepWriting_multi _ _ _ _ _ _ (plain_allowedToWrite _ k)]
  rw [if_pos (by rw [hget1]; rfl),
      if_neg (by rw [hget2]; simp [truthy, Store.newStore])]
  rw [FieldList.set_cons_ne _ _ _ _ _ hdpk]

/-- Batch form of `deepWriting_autoviv`: a nonempty prefixed batch through a
missing key equals the same batch run after pre-assigning the fresh
store. -/
theorem writeList_autoviv (done : FieldList) (k : String) (q : String × StoreValue)
    (ps : List (String × StoreValue))
    (hmiss : FieldList.lookup done k = none) (hkdp : k ≠ "defaultPolicy")
    (hk : colonFree k = true) :
    Store.writeList (.vStore (.cons "defaultPolicy" (.vPrim (.pStr "rw")) done) .nil)
        (prefixPairs k (q :: ps))
      = Store.writeList (.vStore (.cons "defaultPolicy" (.vPrim (.pStr "rw"))
            (FieldList.set done k Store.newStore)) .nil) (prefixPairs k (q :: ps)) := by
  obtain ⟨p, v⟩ := q
  obtain ⟨t0, ts, ht⟩ : ∃ t0 ts, splitColon p = t0 :: ts := by
    cases hsp : splitColon p with
    | nil => exact absurd hsp (splitColon_ne_nil p)
    | cons a b => exact ⟨a, b, rfl⟩
  rw [prefixPairs_cons, Store.writeList.eq_2, Store.writeList.eq_2,
      splitColon_prefix k p hk, ht, deepWriting_autoviv done k t0 ts v hmiss hkdp]

/-- Flattening under base path `b` is the `b`-prefixed version of
flattening with a null base path. -/
theorem deepCreatingFromFields_prefix_none : ∀ (fields : FieldList) (b : String),
    goodFields fields = true → b ≠ "" →
    Store.deepCreatingFromFields (some b) fields
      = (Store.deepCreatingFromFields none fields).map (prefixPairs b)
  | .nil, b, _, _ => by
    simp [Store.deepCreatingFromFields, Except.map, prefixPairs]
  | .cons k v rest, b, hgood, hb => by
    obtain ⟨hk, hv, hrest⟩ := (goodFields_cons_iff k v rest).mp hgood
    obtain ⟨hkne, _, _⟩ := (goodKey_iff k).mp hk
    have ihrest := deepCreatingFromFields_prefix_none rest b hrest hb
    have hcbp1 : Store.childPath (some b) k = b ++ ":" ++ k := childPath_some_ne _ _ hb
    have hcbp2 : Store.childPath none k = k := rfl
    by_cases hobj : typeofIsObject v = false
    · rw [Store.deepCreatingFromFields.eq_2, Store.deepCreatingFromFields.eq_2,
        hcbp1, hcbp2]
      simp only [hobj, if_pos, ihrest]
      cases hr : Store.deepCreatingFromFields none rest with
      | error e => simp [Except.map]
      | ok rp => simp [Except.map, prefixPairs_cons]
    · have hobj' : typeofIsObject v = true := by
        revert hobj
        cases typeofIsObject v <;> simp
      obtain ⟨f2, rfl, hne2, hnodup2, hgf2⟩ := goodEntryVal_object v hv hobj'
      have ihf2 := deepCreatingFromFields_prefix f2 b k hgf2 hb hkne
      rw [Store.deepCreatingFromFields.eq_2, Store.deepCreatingFromFields.eq_2,
        hcbp1, hcbp2]
      simp only [hobj', Bool.true_eq_false, if_neg, ite_false]
      rw [show Store.deepCreatingPathFromJSONObject (some (b ++ ":" ++ k)) (.vObj f2)
            = Store.deepCreatingFromFields (some (b ++ ":" ++ k)) f2
          from by rw [Store.deepCreatingPathFromJSONObject]]
      rw [show Store.deepCreatingPathFromJSONObject (some k) (.vObj f2)
            = Store.deepCreatingFromFields (some k) f2
          from by rw [Store.deepCreatingPathFromJSONObject]]
      rw [ihf2]
      cases hh : Store.deepCreatingFromFields (some k) f2 with
      | error e => simp [Except.map]
      | ok hp =>
        simp only [Except.map, ihrest]
        cases hr : Store.deepCreatingFromFields none rest with
        | error e => simp [Except.map]
        | ok rp => simp [Except.map, prefixPairs_append]

theorem keysAbsent_nil_right : ∀ (l : FieldList), keysAbsent l .nil = true
  | .nil => rfl
  | .cons k v rest => by simp [keysAbsent, FieldList.lookup, keysAbsent_nil_right rest]

/-- Main write-side round-trip lemma: writing the flattening of a
round-trippable field list into a plain store whose dynamic properties are
`done` (all its flattened keys fresh) appends exactly the corresponding
store entries — nested objects becoming plain stores. -/
theorem writeList_flatten_good : ∀ (fields done : FieldList)
    (pairs : List (String × StoreValue)),
    goodFields fields = true → nodupKeys fields = true → keysAbsent fields done = true →
    Store.deepCreatingFromFields none fields = .ok pairs →
    Store.writeList (.vStore (.cons "defaultPolicy" (.vPrim (.pStr "rw")) done) .nil) pairs
      = (.vStore (.cons "defaultPolicy" (.vPrim (.pStr "rw"))
            (FieldList.append done (storeFields fields))) .nil, .ok ())
  | .nil, done, pairs, _, _, _, hflat => by
    have hp : pairs = [] := by
      have h2 := hflat
      simp [Store.deepCreatingFromFields] at h2
      exact h2
    subst hp
    simp [Store.writeList, storeFields, FieldList.append_nil]
  | .cons k v rest, done, pairs, hgood, hnodup, habs, hflat => by
    obtain ⟨hk, hv, hrest⟩ := (goodFields_cons_iff k v rest).mp hgood
    obtain ⟨hkne, hkdp, hkcf⟩ := (goodKey_iff k).mp hk
    obtain ⟨hnotin, hnodup'⟩ := (nodupKeys_cons_iff k v rest).mp hnodup
    obtain ⟨hmiss, habs'⟩ := (keysAbsent_cons_iff k v rest done).mp habs
    have hdpk : ¬("defaultPolicy" = k) := fun h => hkdp h.symm
    by_cases hobj : typeofIsObject v = false
    · -- leaf entry: one direct pair
      have hleaf : goodLeaf v = true := goodEntryVal_not_object_leaf v hv hobj
      rw [Store.deepCreatingFromFields.eq_2] at hflat
      simp only [hobj, if_pos] at hflat
      cases hr : Store.deepCreatingFromFields none rest with
      | error e => rw [hr] at hflat; simp at hflat
      | ok rp =>
        rw [hr] at hflat
        simp only [Except.ok.injEq] at hflat
        subst hflat
        have hstep : Store.writeList
            (.vStore (.cons "defaultPolicy" (.vPrim (.pStr "rw")) done) .nil)
            ((Store.childPath none k, v) :: rp)
          = Store.writeList (.vStore (.cons "defaultPolicy" (.vPrim (.pStr "rw"))
              (FieldList.set done k v)) .nil) rp := by
          rw [show Store.childPath none k = k from rfl, Store.writeList.eq_2,
              splitColon_colonFree k hkcf,
              deepWriting_single _ _ _ _ (plain_allowedToWrite done k),
              FieldList.set_cons_ne _ _ _ _ _ hdpk]
        rw [hstep, FieldList.set_of_lookup_none done k v hmiss,
            writeList_flatten_good rest (FieldList.append done (.cons k v .nil)) rp
              hrest hnodup' (keysAbsent_extend rest done k v habs' hnotin) hr,
            FieldList.append_cons_nil]
        rw [show storeFields (.cons k v rest) = .cons k v (storeFields rest) from by
          rw [storeFields]
          rw [storeEntryVal_leaf v hleaf]]
    · -- nested object entry: a prefixed batch
      have hobj' : typeofIsObject v = true := by
        revert hobj
        cases typeofIsObject v <;> simp
      obtain ⟨f2, rfl, hne2, hnodup2, hgf2⟩ := goodEntryVal_object v hv hobj'
      rw [Store.deepCreatingFromFields.eq_2] at hflat
      simp only [hobj', Bool.true_eq_false, if_neg, ite_false] at hflat
      rw [show Store.deepCreatingPathFromJSONObject (some (Store.childPath none k))
            (.vObj f2) = Store.deepCreatingFromFields (some k) f2 from by
          rw [Store.deepCreatingPathFromJSONObject]
          rfl] at hflat
      obtain ⟨p2, hp2, hp2ne⟩ := deepCreatingFromFields_good_ok f2 none hgf2
      have hpfx : Store.deepCreatingFromFields (some k) f2 = .ok (prefixPairs k p2) := by
        rw [deepCreatingFromFields_prefix_none f2 k hgf2 hkne, hp2]
        rfl
      rw [hpfx] at hflat
      cases hr : Store.deepCreatingFromFields none rest with
      | error e => rw [hr] at hflat; simp at hflat
      | ok rp =>
        rw [hr] at hflat
        simp only [Except.ok.injEq] at hflat
        subst hflat
        obtain ⟨q, ps', rfl⟩ : ∃ q ps', p2 = q :: ps' := by
          cases p2 with
          | nil => exact absurd rfl (hp2ne hne2)
          | cons a b => exact ⟨a, b, rfl⟩
        have hinner := writeList_flatten_good f2 .nil (q :: ps') hgf2 hnodup2
          (keysAbsent_nil_right f2) hp2
        have hlook : FieldList.lookup (FieldList.set done k Store.newStore) k
            = some (.vStore (.cons "defaultPolicy" (.vPrim (.pStr "rw")) .nil) .nil) := by
          rw [FieldList.lookup_set_self]
          rfl
        have hstep1 := writeList_prefixed (q :: ps') (FieldList.set done k Store.newStore)
          k (.cons "defaultPolicy" (.vPrim (.pStr "rw")) .nil) .nil hkcf hkdp hlook
        rw [writeList_append, writeList_autoviv done k q ps' hmiss hkdp hkcf, hstep1,
            hinner]
        simp only []
        rw [FieldList.set_set]
        rw [show FieldList.append .nil (storeFields f2) = storeFields f2 from rfl]
        rw [FieldList.set_of_lookup_none done k _ hmiss,
            writeList_flatten_good rest
              (FieldList.append done (.cons k (.vStore (.cons "defaultPolicy"
                (.vPrim (.pStr "rw")) (storeFields f2)) .nil) .nil)) rp
              hrest hnodup'
              (keysAbsent_extend rest done k _ habs' hnotin) hr,
            FieldList.append_cons_nil]
        rw [show storeFields (.cons k (.vObj f2) rest)
              = .cons k (.vStore (.cons "defaultPolicy" (.vPrim (.pStr "rw"))
                  (storeFields f2)) .nil) (storeFields rest) from by
            rw [storeFields]
            rw [show storeEntryVal (.vObj f2) = plainStore (storeFields f2) from by
              rw [storeEntryVal]]
            rw [plainStore]]

/-- Entries-side round-trip lemma: on a store where every key is readable,
the snapshot of the written store entries reproduces the object, nested
stores reporting their own `defaultPolicy`-augmented snapshots. -/
theorem entriesFromProps_storeFields : ∀ (fields : FieldList) (self : StoreValue),
    goodFields fields = true →
    (∀ key, Store.allowedToRead self key = true) →
    Store.entriesFromProps self (storeFields fields) = augFields fields
  | .nil, self, _, _ => by
    rw [show storeFields .nil = .nil from rfl]
    rw [Store.entriesFromProps]
    rfl
  | .cons k v rest, self, hgood, hallow => by
    obtain ⟨hk, hv, hrest⟩ := (goodFields_cons_iff k v rest).mp hgood
    have ihrest := entriesFromProps_storeFields rest self hrest hallow
    by_cases hobj : typeofIsObject v = false
    · have hleaf := goodEntryVal_not_object_leaf v hv hobj
      rw [show storeFields (.cons k v rest) = .cons k v (storeFields rest) from by
        rw [storeFields, storeEntryVal_leaf v hleaf]]
      have hnotstore : ∀ (props annots : FieldList), v = .vStore props annots → False := by
        intro props annots h
        subst h
        simp [goodLeaf] at hleaf
      rw [Store.entriesFromProps.eq_3 self k v (storeFields rest) hnotstore,
        if_neg (by simp [hallow k])]
      rw [show augFields (.cons k v rest) = .cons k v (augFields rest) from by
        rw [augFields, augEntryVal_leaf v hleaf]]
      rw [ihrest]
    · have hobj' : typeofIsObject v = true := by
        revert hobj
        cases typeofIsObject v <;> simp
      obtain ⟨f2, rfl, hne2, hnodup2, hgf2⟩ := goodEntryVal_object v hv hobj'
      rw [show storeFields (.cons k (.vObj f2) rest)
            = .cons k (.vStore (.cons "defaultPolicy" (.vPrim (.pStr "rw"))
                (storeFields f2)) .nil) (storeFields rest) from by
          rw [storeFields]
          rw [show storeEntryVal (.vObj f2) = plainStore (storeFields f2) from by
            rw [storeEntryVal]]
          rw [plainStore]]
      rw [Store.entriesFromProps.eq_2, if_neg (by simp [hallow k])]
      have hself2 : ∀ key, Store.allowedToRead (.vStore (.cons "defaultPolicy"
          (.vPrim (.pStr "rw")) (storeFields f2)) .nil) key = true :=
        fun key => plain_allowedToRead (storeFields f2) key
      have hchild : Store.entries (.vStore (.cons "defaultPolicy" (.vPrim (.pStr "rw"))
          (storeFields f2)) .nil) = .vObj (.cons "defaultPolicy" (.vPrim (.pStr "rw"))
          (augFields f2)) := by
        rw [Store.entries, Store.entriesFromProps.eq_3 _ _ _ _
            (fun _ _ h => StoreValue.noConfusion h),
          if_neg (by simp [hself2 "defaultPolicy"])]
        rw [entriesFromProps_storeFields f2 _ hgf2 hself2]
      rw [hchild, ihrest]
      rw [show augFields (.cons k (.vObj f2) rest)
            = .cons k (.vObj (.cons "defaultPolicy" (.vPrim (.pStr "rw")) (augFields f2)))
              (augFields rest) from by
          rw [augFields]
          rw [show augEntryVal (.vObj f2) = .vObj (.cons "defaultPolicy"
              (.vPrim (.pStr "rw")) (augFields f2)) from by rw [augEntryVal]]]

/-- **C1 counterexample.** The round trip as claimed fails: on a fresh
store, `writeEntries({a: 1}); entries()` yields an object that also
contains `defaultPolicy: "rw"`, hence is not deep-equal to `{a: 1}`;
an array value is mangled into an index-keyed nested object; an empty
nested object is dropped entirely; keys containing `":"` are split into
nesting; and a `null` value makes `writeEntries` throw a TypeError. -/
theorem C1_counterexample :
    (Store.writeEntries Store.newStore (.vObj (.cons "a" (.vPrim (.pNum 1)) .nil))).2
      = .ok () ∧
    Store.entries (Store.writeEntries Store.newStore
        (.vObj (.cons "a" (.vPrim (.pNum 1)) .nil))).1
      ≠ .vObj (.cons "a" (.vPrim (.pNum 1)) .nil) ∧
    Store.entries (Store.writeEntries Store.newStore
        (.vObj (.cons "a" (.vArr (.cons (.vPrim (.pNum 1)) .nil)) .nil))).1
      ≠ .vObj (.cons "a" (.vArr (.cons (.vPrim (.pNum 1)) .nil)) .nil) ∧
    Store.entries (Store.writeEntries Store.newStore
        (.vObj (.cons "a" (.vObj .nil) .nil))).1
      ≠ .vObj (.cons "a" (.vObj .nil) .nil) ∧
    Store.entries (Store.writeEntries Store.newStore
        (.vObj (.cons "b:c" (.vPrim (.pNum 1)) .nil))).1
      ≠ .vObj (.cons "b:c" (.vPrim (.pNum 1)) .nil) ∧
    (Store.writeEntries Store.newStore (.vObj (.cons "a" (.vPrim .pNull) .nil))).2
      = .error "TypeError: Cannot convert null to object" :=
  ⟨by decide, by decide, by decide, by decide, by decide, by decide⟩

/-- **C1 amended.** For a structured object whose keys (at every level) are
nonempty, colon-free, pairwise distinct and different from
`"defaultPolicy"`, and whose values are non-null primitives or nonempty
nested objects of the same shape, `writeEntries(X); entries()` on a fresh
store yields exactly `X` augmented with a leading `defaultPolicy: "rw"`
entry at every object level (the writes succeed, nested objects becoming
auto-vivified plain stores). -/
theorem C1_roundtrip_with_defaultPolicy (fields : FieldList)
    (hgood : goodFields fields = true) (hnodup : nodupKeys fields = true) :
    Store.writeEntries Store.newStore (.vObj fields)
      = (.vStore (.cons "defaultPolicy" (.vPrim (.pStr "rw")) (storeFields fields)) .nil,
         .ok ()) ∧
    Store.entries (Store.writeEntries Store.newStore (.vObj fields)).1
      = .vObj (.cons "defaultPolicy" (.vPrim (.pStr "rw")) (augFields fields)) := by
  obtain ⟨pairs, hp, _⟩ := deepCreatingFromFields_good_ok fields none hgood
  have hflat : Store.deepCreatingPathFromJSONObject none (.vObj fields) = .ok pairs := by
    rw [Store.deepCreatingPathFromJSONObject]
    exact hp
  have hwl := writeList_flatten_good fields .nil pairs hgood hnodup
    (keysAbsent_nil_right fields) hp
  have hwe : Store.writeEntries Store.newStore (.vObj fields)
      = (.vStore (.cons "defaultPolicy" (.vPrim (.pStr "rw")) (storeFields fields)) .nil,
         .ok ()) := by
    unfold Store.writeEntries
    rw [hflat]
    exact hwl
  refine ⟨hwe, ?_⟩
  rw [hwe]
  have hallow : ∀ key, Store.allowedToRead (.vStore (.cons "defaultPolicy"
      (.vPrim (.pStr "rw")) (storeFields fields)) .nil) key = true :=
    fun key => plain_allowedToRead (storeFields fields) key
  rw [Store.entries, Store.entriesFromProps.eq_3 _ _ _ _
      (fun _ _ h => StoreValue.noConfusion h),
    if_neg (by simp [hallow "defaultPolicy"])]
  rw [entriesFromProps_storeFields fields _ hgood hallow]

theorem C1_roundtrip_with_defaultPolicy_witness :
    Store.writeEntries Store.newStore
        (.vObj (.cons "a" (.vPrim (.pNum 1))
          (.cons "b" (.vObj (.cons "c" (.vPrim (.pStr "x")) .nil)) .nil)))
      = (.vStore (.cons "defaultPolicy" (.vPrim (.pStr "rw"))
          (storeFields (.cons "a" (.vPrim (.pNum 1))
            (.cons "b" (.vObj (.cons "c" (.vPrim (.pStr "x")) .nil)) .nil)))) .nil,
         .ok ()) ∧
    Store.entries (Store.writeEntries Store.newStore
        (.vObj (.cons "a" (.vPrim (.pNum 1))
          (.cons "b" (.vObj (.cons "c" (.vPrim (.pStr "x")) .nil)) .nil)))).1
      = .vObj (.cons "defaultPolicy" (.vPrim (.pStr "rw"))
          (augFields (.cons "a" (.vPrim (.pNum 1))
            (.cons "b" (.vObj (.cons "c" (.vPrim (.pStr "x")) .nil)) .nil)))) :=
  C1_roundtrip_with_defaultPolicy
    (.cons "a" (.vPrim (.pNum 1))
      (.cons "b" (.vObj (.cons "c" (.vPrim (.pStr "x")) .nil)) .nil))
    (by decide) (by decide)
